import Mathlib

/-!
# Verification of the Axis Reducer specification

The repository is a single notebook
(`02.04-Computation-on-arrays-aggregates.ipynb`) that demonstrates
array-aggregation operations (sum, product, min, max, mean, population
standard deviation, percentile) over a toy 3×4 integer grid and a 44-element
sequence of US president heights.  The reduction algorithms themselves live in
an external numerical library and are not part of the repository's sources;
the specification describes them as a single "Axis Reducer" component.  The
definitions below therefore model that component from the specification's
words, and the notebook's printed outputs (the grid sums, the per-axis
minima/maxima, the height statistics) serve as the concrete ground truth the
model is checked against.

Numeric values are modelled as exact rationals.  A standard deviation is an
exact square root of a rational, so reduction results are a `Scalar`: either
a rational or a symbolic square root `Scalar.sqrtOf q` of a nonnegative
rational, whose real value is characterised by `Scalar.isVal`.
-/

namespace AxisReducer

/-- Modelled from the spec: the error taxonomy of §7 — `EmptyInputError`,
`InvalidAxisError`, `InvalidParameterError`. -/
inductive ReduceError where
  | emptyInput
  | invalidAxis
  | invalidParameter
deriving DecidableEq, Repr

/-- Modelled from the spec: the `ReductionKind` enumeration of §3, an
operation selector (sum, product, minimum, maximum, mean,
standard-deviation, percentile(p)). -/
inductive ReductionKind where
  | sum
  | product
  | minimum
  | maximum
  | mean
  | stdDev
  | percentile (p : ℚ)
deriving DecidableEq, Repr

/-- Modelled from the spec: a `Grid` is a rectangular collection of numeric
values, here a 2-D list of rows (a 1-D sequence is a single row, or is fed
to the sequence-level operations directly). -/
abbrev Grid := List (List ℚ)

/-- A reduction result scalar: either an exact rational, or the square root
of a rational (produced only by the standard-deviation reduction). -/
inductive Scalar where
  | rat (q : ℚ)
  | sqrtOf (q : ℚ)
deriving DecidableEq, Repr

/-- The real number a `Scalar` stands for: `rat q` is the rational `q`
itself, and `sqrtOf q` is the nonnegative real whose square is `q`. -/
def Scalar.isVal : Scalar → ℝ → Prop
  | .rat q, r => r = (q : ℝ)
  | .sqrtOf q, r => 0 ≤ r ∧ r ^ 2 = (q : ℝ)

/-- Minimum of a sequence, by straightforward accumulation (`0` on the empty
sequence, which the callers below reject first). -/
def minQ : List ℚ → ℚ
  | [] => 0
  | x :: r => r.foldl min x

/-- Maximum of a sequence, by straightforward accumulation. -/
def maxQ : List ℚ → ℚ
  | [] => 0
  | x :: r => r.foldl max x

/-- Modelled from the spec: the arithmetic mean, computed via straightforward
accumulation (§4.1). -/
def meanQ (xs : List ℚ) : ℚ := xs.sum / (xs.length : ℚ)

/-- Modelled from the spec: the mean of squared deviations from the mean,
dividing by `n` and not `n - 1` (§4.1, population variance). -/
def varianceQ (xs : List ℚ) : ℚ :=
  ((xs.map fun x => (x - meanQ xs) ^ 2).sum) / (xs.length : ℚ)

/-- Sort a sequence ascending. -/
def sortAsc (xs : List ℚ) : List ℚ := xs.insertionSort (· ≤ ·)

/-- Modelled from the spec: the percentile interpolation of §4.1 — for sorted
values `v[0..n-1]` the target index is `p/100 * (n-1)` and the result is the
linear interpolation between `v[⌊index⌋]` and `v[⌈index⌉]` weighted by the
fractional part of the index. -/
def percentileVal (xs : List ℚ) (p : ℚ) : ℚ :=
  let v := sortAsc xs
  let idx : ℚ := p / 100 * ((v.length : ℚ) - 1)
  let frac : ℚ := idx - (⌊idx⌋ : ℚ)
  (1 - frac) * v.getD (⌊idx⌋).toNat 0 + frac * v.getD (⌈idx⌉).toNat 0

/-- Modelled from the spec: the reduction of a single flattened sequence by a
`ReductionKind`.  Sum and product have identities (0 and 1) and succeed on
empty input; minimum, maximum, mean, standard deviation and percentile fail
with `EmptyInputError` on empty input; percentile additionally requires
`0 ≤ p ≤ 100`, failing with `InvalidParameterError` otherwise (§4.1, §7). -/
def reduce1 (xs : List ℚ) : ReductionKind → Except ReduceError Scalar
  | .sum => .ok (.rat xs.sum)
  | .product => .ok (.rat xs.prod)
  | .minimum => if xs.isEmpty then .error .emptyInput else .ok (.rat (minQ xs))
  | .maximum => if xs.isEmpty then .error .emptyInput else .ok (.rat (maxQ xs))
  | .mean => if xs.isEmpty then .error .emptyInput else .ok (.rat (meanQ xs))
  | .stdDev =>
      if xs.isEmpty then .error .emptyInput else .ok (.sqrtOf (varianceQ xs))
  | .percentile p =>
      if xs.isEmpty then .error .emptyInput
      else if 0 ≤ p ∧ p ≤ 100 then .ok (.rat (percentileVal xs p))
      else .error .invalidParameter

/-- Modelled from the spec: `reduceAll(grid, kind)` folds every element of
the grid through the operation named by `kind` (§4.1). -/
def reduceAll (g : Grid) (k : ReductionKind) : Except ReduceError Scalar :=
  reduce1 g.flatten k

/-- The number of rows of a grid. -/
def rowCount (g : Grid) : ℕ := g.length

/-- The number of columns of a (rectangular) grid. -/
def colCount (g : Grid) : ℕ := (g.headD []).length

/-- Column `j` of a grid (one value per row). -/
def column (g : Grid) (j : ℕ) : List ℚ := g.map fun row => row.getD j 0

/-- Map an error-propagating function over a list, failing on the first
error (the synchronous propagation of §7). -/
def mapE {α β : Type} (f : α → Except ReduceError β) :
    List α → Except ReduceError (List β)
  | [] => .ok []
  | x :: l =>
    match f x, mapE f l with
    | .ok y, .ok ys => .ok (y :: ys)
    | .error e, _ => .error e
    | .ok _, .error e => .error e

/-- Modelled from the spec: `reduceAlongAxis(grid, kind, axis)` for a 2-D
grid — axis 0 collapses down the rows, producing one scalar per column; axis
1 collapses across the columns, producing one scalar per row; any axis ≥ the
rank (2) fails with `InvalidAxisError` and is never clamped (§4.1, §7). -/
def reduceAlongAxis (g : Grid) (k : ReductionKind) (axis : ℕ) :
    Except ReduceError (List Scalar) :=
  match axis with
  | 0 => mapE (fun j => reduce1 (column g j) k) (List.range (colCount g))
  | 1 => mapE (fun row => reduce1 row k) g
  | _ => .error .invalidAxis

/-- Modelled from the spec: the standalone `percentile(sequence, p)`
operation of §4.1. -/
def percentile (xs : List ℚ) (p : ℚ) : Except ReduceError Scalar :=
  reduce1 xs (.percentile p)

/-- Modelled from the spec: the standalone `standardDeviation(sequence)`
operation of §4.1 (population standard deviation). -/
def standardDeviation (xs : List ℚ) : Except ReduceError Scalar :=
  reduce1 xs .stdDev

/-- Modelled from the spec: the median as defined in §8 — the average of the
two middle elements of the sorted sequence for even length, the single
middle element for odd length. -/
def medianSpec (xs : List ℚ) : ℚ :=
  let v := sortAsc xs
  if v.length % 2 = 1 then v.getD (v.length / 2) 0
  else (v.getD (v.length / 2 - 1) 0 + v.getD (v.length / 2) 0) / 2

/-- The 3×4 grid printed by the notebook (`M`, cell output
`[[1 1 1 0] [3 4 7 2] [0 5 3 8]]`). -/
def gridM : Grid := [[1, 1, 1, 0], [3, 4, 7, 2], [0, 5, 3, 8]]

/-- The 44 president heights printed by the notebook (`heights`). -/
def heights : List ℚ :=
  [189, 170, 189, 163, 183, 171, 185, 168, 173, 183, 173,
   173, 175, 178, 183, 193, 178, 173, 174, 183, 183, 168,
   170, 178, 182, 180, 183, 178, 182, 188, 175, 179, 183,
   193, 182, 183, 177, 185, 188, 188, 182, 185, 191, 182]

/-- Modelled from the spec: grids are "never mutated after construction"
(§3) and every operation is a pure function over immutable input (§5); the
notebook echoes `M` unchanged after `M.sum()` and after `M.max(axis=1)`.
A call of `reduceAll` on a grid is modelled as returning its result
together with the grid the call leaves behind. -/
def reduceAllCall (g : Grid) (k : ReductionKind) :
    Except ReduceError Scalar × Grid :=
  (reduceAll g k, g)

/-- Modelled from the spec: a call of `reduceAlongAxis`, returning its
result together with the grid the call leaves behind (§3, §5). -/
def reduceAlongAxisCall (g : Grid) (k : ReductionKind) (axis : ℕ) :
    Except ReduceError (List Scalar) × Grid :=
  (reduceAlongAxis g k axis, g)

/-- Modelled from the spec: a call of `percentile`, returning its result
together with the sequence the call leaves behind (§3, §5). -/
def percentileCall (xs : List ℚ) (p : ℚ) :
    Except ReduceError Scalar × List ℚ :=
  (percentile xs p, xs)

/-- Modelled from the spec: a call of `standardDeviation`, returning its
result together with the sequence the call leaves behind (§3, §5). -/
def standardDeviationCall (xs : List ℚ) :
    Except ReduceError Scalar × List ℚ :=
  (standardDeviation xs, xs)

/-! ### Helper lemmas: accumulated minima and maxima -/

theorem foldl_min_le_init (r : List ℚ) (x : ℚ) : r.foldl min x ≤ x := by
  induction r generalizing x with
  | nil => exact le_refl x
  | cons y r ih => exact le_trans (ih (min x y)) (min_le_left x y)

theorem foldl_min_le_mem (r : List ℚ) (x y : ℚ) (hy : y ∈ r) :
    r.foldl min x ≤ y := by
  induction r generalizing x with
  | nil => cases hy
  | cons z r ih =>
    rcases List.mem_cons.mp hy with rfl | hy2
    · exact le_trans (foldl_min_le_init r (min x y)) (min_le_right x y)
    · exact ih (min x z) hy2

theorem foldl_min_mem (r : List ℚ) (x : ℚ) : r.foldl min x ∈ x :: r := by
  induction r generalizing x with
  | nil => simp
  | cons z r ih =>
    simp only [List.foldl_cons]
    rcases List.mem_cons.mp (ih (min x z)) with h1 | h2
    · rcases min_choice x z with h3 | h3
      · rw [h1, h3]; exact List.mem_cons_self x (z :: r)
      · rw [h1, h3]
        exact List.mem_cons_of_mem x (List.mem_cons_self z r)
    · exact List.mem_cons_of_mem x (List.mem_cons_of_mem z h2)

theorem init_le_foldl_max (r : List ℚ) (x : ℚ) : x ≤ r.foldl max x := by
  induction r generalizing x with
  | nil => exact le_refl x
  | cons y r ih => exact le_trans (le_max_left x y) (ih (max x y))

theorem mem_le_foldl_max (r : List ℚ) (x y : ℚ) (hy : y ∈ r) :
    y ≤ r.foldl max x := by
  induction r generalizing x with
  | nil => cases hy
  | cons z r ih =>
    rcases List.mem_cons.mp hy with rfl | hy2
    · exact le_trans (le_max_right x y) (init_le_foldl_max r (max x y))
    · exact ih (max x z) hy2

theorem foldl_max_mem (r : List ℚ) (x : ℚ) : r.foldl max x ∈ x :: r := by
  induction r generalizing x with
  | nil => simp
  | cons z r ih =>
    simp only [List.foldl_cons]
    rcases List.mem_cons.mp (ih (max x z)) with h1 | h2
    · rcases max_choice x z with h3 | h3
      · rw [h1, h3]; exact List.mem_cons_self x (z :: r)
      · rw [h1, h3]
        exact List.mem_cons_of_mem x (List.mem_cons_self z r)
    · exact List.mem_cons_of_mem x (List.mem_cons_of_mem z h2)

theorem minQ_mem {S : List ℚ} (h : S ≠ []) : minQ S ∈ S := by
  match S with
  | [] => exact absurd rfl h
  | x :: r => exact foldl_min_mem r x

theorem minQ_le {S : List ℚ} {y : ℚ} (hy : y ∈ S) : minQ S ≤ y := by
  match S with
  | [] => cases hy
  | x :: r =>
    rcases List.mem_cons.mp hy with rfl | hy2
    · exact foldl_min_le_init r y
    · exact foldl_min_le_mem r x y hy2

theorem maxQ_mem {S : List ℚ} (h : S ≠ []) : maxQ S ∈ S := by
  match S with
  | [] => exact absurd rfl h
  | x :: r => exact foldl_max_mem r x

theorem le_maxQ {S : List ℚ} {y : ℚ} (hy : y ∈ S) : y ≤ maxQ S := by
  match S with
  | [] => cases hy
  | x :: r =>
    rcases List.mem_cons.mp hy with rfl | hy2
    · exact init_le_foldl_max r y
    · exact mem_le_foldl_max r x y hy2

/-! ### Helper lemmas: the ascending sort -/

theorem sortAsc_sorted (S : List ℚ) : (sortAsc S).Sorted (· ≤ ·) :=
  List.sorted_insertionSort _ S

theorem sortAsc_perm (S : List ℚ) : List.Perm (sortAsc S) S :=
  List.perm_insertionSort _ S

theorem sortAsc_length (S : List ℚ) : (sortAsc S).length = S.length :=
  (sortAsc_perm S).length_eq

theorem sortAsc_ne_nil {S : List ℚ} (h : S ≠ []) : sortAsc S ≠ [] := by
  intro hcon
  apply h
  have hlen : S.length = 0 := by rw [← sortAsc_length S, hcon]; rfl
  exact List.length_eq_zero.mp hlen

theorem sorted_getD_zero_le {v : List ℚ} (hs : v.Sorted (· ≤ ·)) {y : ℚ}
    (hy : y ∈ v) : v.getD 0 0 ≤ y := by
  match v with
  | [] => cases hy
  | a :: t =>
    rcases List.mem_cons.mp hy with rfl | hy2
    · simp
    · simpa using List.rel_of_sorted_cons hs y hy2

theorem getD_zero_mem {v : List ℚ} (h : v ≠ []) : v.getD 0 0 ∈ v := by
  match v with
  | [] => exact absurd rfl h
  | a :: t => simp

theorem getD_last_mem : ∀ (v : List ℚ), v ≠ [] → v.getD (v.length - 1) 0 ∈ v
  | [a], _ => by simp
  | a :: b :: t, _ => by
    have h := getD_last_mem (b :: t) (by simp)
    simp only [List.length_cons, Nat.add_sub_cancel] at h ⊢
    rw [List.getD_cons_succ]
    exact List.mem_cons_of_mem a h

theorem le_sorted_getD_last :
    ∀ (v : List ℚ), v.Sorted (· ≤ ·) → ∀ y ∈ v, y ≤ v.getD (v.length - 1) 0
  | [], _, y, hy => by cases hy
  | [a], _, y, hy => by
    simp only [List.mem_singleton] at hy
    simp [hy]
  | a :: b :: t, hs, y, hy => by
    have hs2 := (List.sorted_cons.mp hs).2
    have hrel := (List.sorted_cons.mp hs).1
    simp only [List.length_cons, Nat.add_sub_cancel] at *
    rw [List.getD_cons_succ]
    have hmem := getD_last_mem (b :: t) (by simp)
    simp only [List.length_cons, Nat.add_sub_cancel] at hmem
    rcases List.mem_cons.mp hy with rfl | hy2
    · exact hrel _ hmem
    · exact le_sorted_getD_last (b :: t) hs2 y hy2

theorem sortAsc_getD_zero_eq_minQ {S : List ℚ} (h : S ≠ []) :
    (sortAsc S).getD 0 0 = minQ S := by
  have hv : sortAsc S ≠ [] := sortAsc_ne_nil h
  apply le_antisymm
  · exact sorted_getD_zero_le (sortAsc_sorted S)
      ((sortAsc_perm S).symm.subset (minQ_mem h))
  · exact minQ_le ((sortAsc_perm S).subset (getD_zero_mem hv))

theorem sortAsc_getD_last_eq_maxQ {S : List ℚ} (h : S ≠ []) :
    (sortAsc S).getD ((sortAsc S).length - 1) 0 = maxQ S := by
  have hv : sortAsc S ≠ [] := sortAsc_ne_nil h
  apply le_antisymm
  · exact le_maxQ ((sortAsc_perm S).subset (getD_last_mem _ hv))
  · exact le_sorted_getD_last _ (sortAsc_sorted S) _
      ((sortAsc_perm S).symm.subset (maxQ_mem h))

/-! ### Helper lemmas: the percentile interpolation at special ranks -/

theorem percentileVal_eq_getD {S : List ℚ} (p : ℚ) (m : ℕ)
    (hm : p / 100 * (((sortAsc S).length : ℚ) - 1) = (m : ℚ)) :
    percentileVal S p = (sortAsc S).getD m 0 := by
  simp only [percentileVal]
  rw [hm, Int.floor_natCast, Int.ceil_natCast]
  push_cast
  ring_nf
  simp

theorem percentileVal_eq_avg {S : List ℚ} (p : ℚ) (m : ℕ) (hm1 : 1 ≤ m)
    (hm : p / 100 * (((sortAsc S).length : ℚ) - 1) = (m : ℚ) - 1 / 2) :
    percentileVal S p =
      ((sortAsc S).getD (m - 1) 0 + (sortAsc S).getD m 0) / 2 := by
  have hfloor : ⌊(m : ℚ) - 1 / 2⌋ = (m : ℤ) - 1 := by
    rw [Int.floor_eq_iff]
    constructor
    · push_cast; linarith
    · push_cast; linarith
  have hceil : ⌈(m : ℚ) - 1 / 2⌉ = (m : ℤ) := by
    rw [Int.ceil_eq_iff]
    constructor
    · push_cast; linarith [hm1]
    · push_cast
      have hm0 : (1 : ℚ) ≤ (m : ℚ) := by exact_mod_cast hm1
      linarith
  have ht1 : ((m : ℤ) - 1).toNat = m - 1 := by omega
  have ht2 : ((m : ℤ)).toNat = m := by omega
  simp only [percentileVal]
  rw [hm, hfloor, hceil, ht1, ht2]
  have hfrac : (m : ℚ) - 1 / 2 - (((m : ℤ) - 1 : ℤ) : ℚ) = 1 / 2 := by
    push_cast; ring
  rw [hfrac]
  ring

theorem percentileVal_zero {S : List ℚ} (h : S ≠ []) :
    percentileVal S 0 = minQ S := by
  rw [percentileVal_eq_getD 0 0 (by norm_num)]
  exact sortAsc_getD_zero_eq_minQ h

theorem percentileVal_hundred {S : List ℚ} (h : S ≠ []) :
    percentileVal S 100 = maxQ S := by
  have hv : sortAsc S ≠ [] := sortAsc_ne_nil h
  have hL : 1 ≤ (sortAsc S).length := List.length_pos.mpr hv
  rw [percentileVal_eq_getD 100 ((sortAsc S).length - 1)
    (by rw [Nat.cast_sub hL]; norm_num)]
  exact sortAsc_getD_last_eq_maxQ h

theorem percentileVal_fifty {S : List ℚ} (h : S ≠ []) :
    percentileVal S 50 = medianSpec S := by
  have hv : sortAsc S ≠ [] := sortAsc_ne_nil h
  have hL : 1 ≤ (sortAsc S).length := List.length_pos.mpr hv
  rcases Nat.even_or_odd (sortAsc S).length with he | ho
  · obtain ⟨m, hm⟩ := he
    have hm1 : 1 ≤ m := by omega
    have hstep : percentileVal S 50 =
        ((sortAsc S).getD (m - 1) 0 + (sortAsc S).getD m 0) / 2 := by
      apply percentileVal_eq_avg 50 m hm1
      rw [hm]; push_cast; ring
    rw [hstep]
    simp only [medianSpec]
    rw [if_neg (by omega)]
    have hdiv : (sortAsc S).length / 2 = m := by omega
    rw [hdiv]
  · obtain ⟨m, hm⟩ := ho
    have hstep : percentileVal S 50 = (sortAsc S).getD m 0 := by
      apply percentileVal_eq_getD 50 m
      rw [hm]; push_cast; ring
    rw [hstep]
    simp only [medianSpec]
    rw [if_pos (by omega)]
    have hdiv : (sortAsc S).length / 2 = m := by omega
    rw [hdiv]

/-! ### Helper lemmas: error propagation over a mapped list -/

theorem mapE_ok_length {α β : Type} (f : α → Except ReduceError β) :
    ∀ (l : List α) (ys : List β), mapE f l = .ok ys → ys.length = l.length
  | [], ys, h => by
    simp only [mapE] at h
    cases h
    rfl
  | x :: l, ys, h => by
    simp only [mapE] at h
    cases hfx : f x with
    | error e => rw [hfx] at h; cases h
    | ok y =>
      cases hml : mapE f l with
      | error e => rw [hfx, hml] at h; cases h
      | ok ys2 =>
        rw [hfx, hml] at h
        cases h
        simp [mapE_ok_length f l ys2 hml]

/-! ### Helper lemmas: unfolding `reduce1` on non-empty input -/

theorem reduce1_minimum_ne_nil {S : List ℚ} (h : S ≠ []) :
    reduce1 S .minimum = .ok (.rat (minQ S)) := by
  match S with
  | x :: t => rfl

theorem reduce1_maximum_ne_nil {S : List ℚ} (h : S ≠ []) :
    reduce1 S .maximum = .ok (.rat (maxQ S)) := by
  match S with
  | x :: t => rfl

theorem reduce1_percentile_ne_nil {S : List ℚ} {p : ℚ} (h : S ≠ [])
    (h0 : 0 ≤ p) (h1 : p ≤ 100) :
    reduce1 S (.percentile p) = .ok (.rat (percentileVal S p)) := by
  match S with
  | x :: t =>
    simp only [reduce1, List.isEmpty_cons, Bool.false_eq_true, if_false]
    rw [if_pos ⟨h0, h1⟩]

/-- `reduceAll` on a one-row grid is the reduction of that row. -/
theorem reduceAll_singleton (S : List ℚ) (k : ReductionKind) :
    reduceAll [S] k = reduce1 S k := by
  simp [reduceAll]

/-! ### The claims -/

/-- C1: For every 2-D grid, `reduceAlongAxis` with axis 0 collapses down
the rows and returns one scalar per column (the result length equals the
column count), and axis 1 collapses across the columns and returns one
scalar per row (the result length equals the row count); the axis argument
names the dimension that is eliminated, never the one that is kept. -/
theorem axis_names_collapsed_dimension (g : Grid) (k : ReductionKind) :
    (∀ ys, reduceAlongAxis g k 0 = .ok ys → ys.length = colCount g) ∧
    (∀ ys, reduceAlongAxis g k 1 = .ok ys → ys.length = rowCount g) := by
  constructor
  · intro ys h
    simp only [reduceAlongAxis] at h
    simpa using mapE_ok_length _ _ _ h
  · intro ys h
    simp only [reduceAlongAxis] at h
    exact mapE_ok_length _ _ _ h

/-- Witness for C1: at the notebook's 3×4 grid, the axis-0 result has one
entry per column (4 entries) and the axis-1 result one entry per row (3
entries). -/
theorem axis_names_collapsed_dimension_witness :
    [Scalar.rat 4, .rat 10, .rat 11, .rat 10].length = colCount gridM ∧
    [Scalar.rat 1, .rat 7, .rat 8].length = rowCount gridM :=
  ⟨(axis_names_collapsed_dimension gridM .sum).1 _
      (by norm_num [reduceAlongAxis, mapE, reduce1, gridM, colCount, column,
        List.range_succ]),
    (axis_names_collapsed_dimension gridM .maximum).2 _
      (by norm_num [reduceAlongAxis, mapE, reduce1, gridM, maxQ])⟩

/-- C2: For the 3×4 grid `[[1,1,1,0],[3,4,7,2],[0,5,3,8]]`, `reduceAll`
with kind sum returns 35, `reduceAlongAxis` with kind minimum and axis 0
returns `[0,1,1,0]`, and `reduceAlongAxis` with kind maximum and axis 1
returns `[1,7,8]`. -/
theorem gridM_demonstrated_aggregates :
    reduceAll gridM .sum = .ok (.rat 35) ∧
    reduceAlongAxis gridM .minimum 0 =
      .ok [.rat 0, .rat 1, .rat 1, .rat 0] ∧
    reduceAlongAxis gridM .maximum 1 = .ok [.rat 1, .rat 7, .rat 8] := by
  refine ⟨?_, ?_, ?_⟩
  · norm_num [reduceAll, reduce1, gridM]
  · norm_num [reduceAlongAxis, mapE, reduce1, gridM, colCount, column, minQ,
      List.range_succ]
  · norm_num [reduceAlongAxis, mapE, reduce1, gridM, maxQ]

/-- C3: For the 44-element president-heights sequence, `reduceAll` returns
a mean of exactly 3961/22 — which is within 10⁻¹³ of the demonstrated
180.04545454545453 (≈ 180.0455) — a population standard deviation
√(23605/484), whose value lies strictly between 6.98359 and 6.98360
(≈ 6.9836), a minimum of 163, a maximum of 193, and a 50th percentile
(median) of 182. -/
theorem heights_demonstrated_statistics :
    reduceAll [heights] .mean = .ok (.rat (3961 / 22)) ∧
    |(3961 / 22 : ℚ) - 18004545454545453 / 100000000000000| <
      1 / 10 ^ 13 ∧
    reduceAll [heights] .stdDev = .ok (.sqrtOf (23605 / 484)) ∧
    (∀ r : ℝ, Scalar.isVal (.sqrtOf (23605 / 484)) r →
      (698359 / 100000 : ℝ) < r ∧ r < (698360 / 100000 : ℝ)) ∧
    reduceAll [heights] .minimum = .ok (.rat 163) ∧
    reduceAll [heights] .maximum = .ok (.rat 193) ∧
    reduceAll [heights] (.percentile 50) = .ok (.rat 182) := by
  have hne : heights ≠ [] := by simp [heights]
  refine ⟨?_, ?_, ?_, ?_, ?_, ?_, ?_⟩
  · rw [reduceAll_singleton]
    norm_num [reduce1, heights, meanQ]
  · rw [abs_of_pos (by norm_num)]
    norm_num
  · rw [reduceAll_singleton]
    norm_num [reduce1, heights, varianceQ, meanQ]
  · rintro r ⟨hr0, hr2⟩
    have hc : (r : ℝ) ^ 2 = 23605 / 484 := by
      rw [hr2]; norm_num
    constructor
    · nlinarith [hr0, hc]
    · nlinarith [hr0, hc]
  · rw [reduceAll_singleton, reduce1_minimum_ne_nil hne]
    norm_num [heights, minQ, min_def]
  · rw [reduceAll_singleton, reduce1_maximum_ne_nil hne]
    norm_num [heights, maxQ, max_def]
  · rw [reduceAll_singleton,
      reduce1_percentile_ne_nil hne (by norm_num) (by norm_num),
      percentileVal_fifty hne]
    norm_num [medianSpec, sortAsc, heights, List.insertionSort,
      List.orderedInsert]

/-- Witness for C3: the standard-deviation bound instantiated at the real
square root of 23605/484, the value the notebook prints as
6.983599441335736. -/
theorem heights_demonstrated_statistics_witness :
    (698359 / 100000 : ℝ) < Real.sqrt (23605 / 484) ∧
    Real.sqrt (23605 / 484) < (698360 / 100000 : ℝ) :=
  heights_demonstrated_statistics.2.2.2.1 (Real.sqrt (23605 / 484))
    ⟨Real.sqrt_nonneg _, by
      rw [Real.sq_sqrt (by norm_num : (0 : ℝ) ≤ 23605 / 484)]
      norm_num⟩

/-- C4: For every non-empty sequence `S`, `standardDeviation S` is the
population standard deviation: the (nonnegative) square root of the mean of
squared deviations from the mean of `S`, with the division by `n` and not
by `n - 1`. -/
theorem standardDeviation_is_population (S : List ℚ) (h : S ≠ []) :
    standardDeviation S = .ok (.sqrtOf (varianceQ S)) ∧
    varianceQ S =
      ((S.map fun x => (x - S.sum / (S.length : ℚ)) ^ 2).sum) /
        (S.length : ℚ) ∧
    ∀ r : ℝ, Scalar.isVal (.sqrtOf (varianceQ S)) r ↔
      (0 ≤ r ∧ r ^ 2 = ((varianceQ S : ℚ) : ℝ)) := by
  refine ⟨?_, rfl, fun r => Iff.rfl⟩
  match S with
  | x :: t => rfl

/-- Witness for C4: at the sequence `[2, 2]` (variance 0). -/
theorem standardDeviation_is_population_witness :
    standardDeviation [2, 2] = .ok (.sqrtOf (varianceQ [2, 2])) ∧
    varianceQ [2, 2] = 0 :=
  ⟨(standardDeviation_is_population [2, 2] (by simp)).1,
    by norm_num [varianceQ, meanQ]⟩

/-- C5: For every non-empty sequence and every rank `p` with
`0 ≤ p ≤ 100`, `percentile` sorts the values ascending into `v[0..n-1]`,
computes the target index `p/100 * (n-1)`, and returns the linear
interpolation between `v[⌊index⌋]` and `v[⌈index⌉]` weighted by the
fractional part of the index. -/
theorem percentile_is_linear_interpolation (S : List ℚ) (p : ℚ)
    (h : S ≠ []) (h0 : 0 ≤ p) (h1 : p ≤ 100) :
    percentile S p = .ok (.rat (
      (1 - (p / 100 * (((sortAsc S).length : ℚ) - 1) -
          (⌊p / 100 * (((sortAsc S).length : ℚ) - 1)⌋ : ℚ))) *
        (sortAsc S).getD (⌊p / 100 * (((sortAsc S).length : ℚ) - 1)⌋).toNat 0 +
      (p / 100 * (((sortAsc S).length : ℚ) - 1) -
          (⌊p / 100 * (((sortAsc S).length : ℚ) - 1)⌋ : ℚ)) *
        (sortAsc S).getD (⌈p / 100 * (((sortAsc S).length : ℚ) - 1)⌉).toNat 0)) ∧
    (sortAsc S).Sorted (· ≤ ·) ∧ List.Perm (sortAsc S) S := by
  refine ⟨?_, sortAsc_sorted S, sortAsc_perm S⟩
  rw [percentile, reduce1_percentile_ne_nil h h0 h1]
  rfl

/-- Witness for C5: at the sequence `[1, 2]` and rank 0 the interpolated
value is the smaller element. -/
theorem percentile_is_linear_interpolation_witness :
    percentile [1, 2] 0 = .ok (.rat 1) := by
  have h := (percentile_is_linear_interpolation [1, 2] 0 (by simp) le_rfl
    (by norm_num)).1
  rw [h]
  norm_num [sortAsc, List.insertionSort, List.orderedInsert]

/-- C6: For every non-empty sequence `S`, `percentile(S, 0)` is the minimum
of `S`, `percentile(S, 100)` is the maximum of `S`, and `percentile(S, 50)`
is the median of `S` — the average of the two middle elements of sorted `S`
for even length, the single middle element for odd length. -/
theorem percentile_endpoints_and_median (S : List ℚ) (h : S ≠ []) :
    reduce1 S (.percentile 0) = reduce1 S .minimum ∧
    reduce1 S (.percentile 100) = reduce1 S .maximum ∧
    reduce1 S (.percentile 50) = .ok (.rat (medianSpec S)) := by
  refine ⟨?_, ?_, ?_⟩
  · rw [reduce1_percentile_ne_nil h le_rfl (by norm_num),
      reduce1_minimum_ne_nil h, percentileVal_zero h]
  · rw [reduce1_percentile_ne_nil h (by norm_num) le_rfl,
      reduce1_maximum_ne_nil h, percentileVal_hundred h]
  · rw [reduce1_percentile_ne_nil h (by norm_num) (by norm_num),
      percentileVal_fifty h]

/-- Witness for C6: at the sequence `[3, 1, 2]` — rank 0 agrees with the
minimum reduction and rank 50 returns the middle element 2. -/
theorem percentile_endpoints_and_median_witness :
    reduce1 [3, 1, 2] (.percentile 0) = reduce1 [3, 1, 2] .minimum ∧
    reduce1 [3, 1, 2] (.percentile 50) = .ok (.rat 2) := by
  obtain ⟨h1, h2, h3⟩ := percentile_endpoints_and_median [3, 1, 2] (by simp)
  refine ⟨h1, ?_⟩
  rw [h3]
  norm_num [medianSpec, sortAsc, List.insertionSort, List.orderedInsert]

/-- C7: For every non-empty sequence `S` and every permutation `T` of `S`,
`reduceAll` with kind sum gives the same value on `S` and on `T`: the sum
reduction is independent of the order of the elements. -/
theorem sum_reduction_perm_invariant (S T : List ℚ) (hne : S ≠ [])
    (hperm : List.Perm S T) :
    reduceAll [S] .sum = reduceAll [T] .sum := by
  rw [reduceAll_singleton, reduceAll_singleton]
  simp [reduce1, hperm.sum_eq]

/-- Witness for C7: `[1, 2]` and its transposition `[2, 1]`. -/
theorem sum_reduction_perm_invariant_witness :
    reduceAll [[1, 2]] .sum = reduceAll [[2, 1]] .sum :=
  sum_reduction_perm_invariant [1, 2] [2, 1] (by simp)
    (List.Perm.swap 2 1 [])

/-- C8: `reduceAll` on the empty grid fails with `EmptyInputError` for
kinds minimum, maximum, mean, standard-deviation and percentile, while for
kind sum it returns the identity 0 and for kind product the identity 1
instead of failing. -/
theorem empty_grid_reductions (p : ℚ) :
    reduceAll [] .sum = .ok (.rat 0) ∧
    reduceAll [] .product = .ok (.rat 1) ∧
    reduceAll [] .minimum = .error .emptyInput ∧
    reduceAll [] .maximum = .error .emptyInput ∧
    reduceAll [] .mean = .error .emptyInput ∧
    reduceAll [] .stdDev = .error .emptyInput ∧
    reduceAll [] (.percentile p) = .error .emptyInput :=
  ⟨rfl, rfl, rfl, rfl, rfl, rfl, rfl⟩

/-- C9: For every grid and every axis index at or above the grid's rank
(2), `reduceAlongAxis` fails with `InvalidAxisError`: the axis is never
clamped and no result is produced. -/
theorem invalid_axis_rejected (g : Grid) (k : ReductionKind) (a : ℕ)
    (h : 2 ≤ a) : reduceAlongAxis g k a = .error .invalidAxis := by
  match a, h with
  | n + 2, _ => rfl

/-- Witness for C9: axis 2 on the notebook's 2-D grid. -/
theorem invalid_axis_rejected_witness :
    reduceAlongAxis gridM .sum 2 = .error .invalidAxis :=
  invalid_axis_rejected gridM .sum 2 (by norm_num)

/-- C10: Every reduction operation leaves its input unchanged: after any
call, the grid (its elements, row count and column count) and the sequence
arguments are identical to what they were before the call. -/
theorem reductions_leave_input_unchanged (g : Grid) (k : ReductionKind)
    (a : ℕ) (xs : List ℚ) (p : ℚ) :
    (reduceAllCall g k).2 = g ∧
    rowCount (reduceAllCall g k).2 = rowCount g ∧
    colCount (reduceAllCall g k).2 = colCount g ∧
    (reduceAlongAxisCall g k a).2 = g ∧
    rowCount (reduceAlongAxisCall g k a).2 = rowCount g ∧
    colCount (reduceAlongAxisCall g k a).2 = colCount g ∧
    (percentileCall xs p).2 = xs ∧
    (standardDeviationCall xs).2 = xs :=
  ⟨rfl, rfl, rfl, rfl, rfl, rfl, rfl, rfl⟩

end AxisReducer
